import Mathlib

/-!
Shallow embedding of two VS Code workbench contributions:

* `src/vs/workbench/contrib/notebook/browser/controller/chat/notebookChatController.ts`
  (the notebook inline-chat controller and its `EditStrategy`), and
* `src/vs/workbench/contrib/scm/browser/scmViewPane.ts`
  (the SCM view pane: tree sorter, tree identity, data source).

Strings are modelled as `List Char`; machine text-model version ids are `Nat`.
-/

namespace VSCode

/-! ## Editor positions (vs/editor/common/core/position.ts)

A `Pos` is a (1-based) line/column pair.  `Pos.isBefore` is the strict
lexicographic order used by the cursor-state computer of
`EditStrategy.makeChanges`. -/

structure Pos where
  lineNumber : Nat
  column : Nat
  deriving DecidableEq, Repr

/-- `Position.isBefore`: strictly before in lexicographic (line, column) order. -/
def Pos.isBefore (a b : Pos) : Bool :=
  if a.lineNumber = b.lineNumber then a.column < b.column
  else a.lineNumber < b.lineNumber

/-! ## EditStrategy.makeChanges cursor-state computer (C1)

```
const cursorStateComputerAndInlineDiffCollection: ICursorStateComputer = (undoEdits) => {
  let last: Position | null = null;
  for (const edit of undoEdits) {
    last = !last || last.isBefore(edit.range.getEndPosition()) ? edit.range.getEndPosition() : last;
  }
  return last && [Selection.fromPositions(last)];
};
```
An undo edit is represented by the end position of its range. -/

structure UndoEdit where
  rangeEndPosition : Pos
  deriving DecidableEq, Repr

/-- One step of the `for` loop: replace the candidate only when it is strictly
before the edit's end position. -/
def cursorStep (last : Option Pos) (edit : UndoEdit) : Option Pos :=
  match last with
  | none => some edit.rangeEndPosition
  | some l => if l.isBefore edit.rangeEndPosition then some edit.rangeEndPosition else some l

/-- The cursor-state computer of `EditStrategy.makeChanges`: fold `cursorStep`
over the reported undo edits; `none` models the `null` result on an empty list
(no selection returned). -/
def computeCursor (undoEdits : List UndoEdit) : Option Pos :=
  undoEdits.foldl cursorStep none

lemma Pos.isBefore_iff (a b : Pos) :
    a.isBefore b = true ↔
      (a.lineNumber < b.lineNumber ∨ (a.lineNumber = b.lineNumber ∧ a.column < b.column)) := by
  unfold Pos.isBefore
  by_cases h : a.lineNumber = b.lineNumber
  · simp [h]
  · simp [h]

lemma Pos.not_isBefore_trans {a b c : Pos}
    (hab : ¬ a.isBefore b = true) (hbc : ¬ b.isBefore c = true) :
    ¬ a.isBefore c = true := by
  simp only [Pos.isBefore_iff] at *
  omega

lemma Pos.isBefore_of_isBefore_of_not {a b c : Pos}
    (hab : a.isBefore b = true) (hcb : ¬ c.isBefore b = true) :
    ¬ c.isBefore a = true := by
  simp only [Pos.isBefore_iff] at *
  omega

lemma computeCursor_go (edits : List UndoEdit) (l : Pos) :
    ∃ m, edits.foldl cursorStep (some l) = some m ∧
      (m = l ∨ (∃ e ∈ edits, e.rangeEndPosition = m)) ∧
      ¬ m.isBefore l = true ∧
      (∀ e ∈ edits, ¬ m.isBefore e.rangeEndPosition = true) := by
  induction edits generalizing l with
  | nil =>
    refine ⟨l, rfl, Or.inl rfl, ?_, by simp⟩
    simp [Pos.isBefore_iff]
  | cons e rest ih =>
    by_cases h : l.isBefore e.rangeEndPosition
    · obtain ⟨m, hm, hmem, hge, hall⟩ := ih e.rangeEndPosition
      refine ⟨m, ?_, ?_, ?_, ?_⟩
      · simpa [cursorStep, h] using hm
      · rcases hmem with h1 | ⟨e1, he1, he2⟩
        · exact Or.inr ⟨e, by simp, h1.symm⟩
        · exact Or.inr ⟨e1, by simp [he1], he2⟩
      · exact Pos.isBefore_of_isBefore_of_not h hge
      · intro e1 he1
        rcases List.mem_cons.mp he1 with h1 | h1
        · subst h1; exact hge
        · exact hall e1 h1
    · obtain ⟨m, hm, hmem, hge, hall⟩ := ih l
      refine ⟨m, ?_, ?_, hge, ?_⟩
      · simpa [cursorStep, h] using hm
      · rcases hmem with h1 | ⟨e1, he1, he2⟩
        · exact Or.inl h1
        · exact Or.inr ⟨e1, by simp [he1], he2⟩
      · intro e1 he1
        rcases List.mem_cons.mp he1 with h1 | h1
        · subst h1; exact Pos.not_isBefore_trans hge h
        · exact hall e1 h1

/-! ## Text model with undo stack, and EditStrategy.cancel (C2)

The notebook chat `Session` exposes `textModelN` (an `ITextModel`), its
alternative version id at session start (`textModelNAltVersion`) and an
optional snapshot version (`textModelNSnapshotAltVersion`).  An `ITextModel`
is modelled by its current content, its current alternative version id, a
stack of undo states (most recent first) and a disposed flag.  `undo` pops
the stack; `canUndo` checks it is non-empty; an edit pushes the current state
and bumps the alternative version id. -/

structure TextModel where
  altVersionId : Nat
  content : List Char
  undoStack : List (Nat × List Char)
  disposed : Bool
  deriving DecidableEq, Repr

def TextModel.canUndo (m : TextModel) : Bool :=
  !m.undoStack.isEmpty

def TextModel.undo (m : TextModel) : TextModel :=
  match m.undoStack with
  | [] => m
  | (v, c) :: rest => { altVersionId := v, content := c, undoStack := rest, disposed := m.disposed }

/-- Applying an edit operation: the current state is pushed on the undo stack
and the alternative version id increases. -/
def TextModel.applyEdit (m : TextModel) (newContent : List Char) : TextModel :=
  { altVersionId := m.altVersionId + 1
    content := newContent
    undoStack := (m.altVersionId, m.content) :: m.undoStack
    disposed := m.disposed }

/-- Applying a list of edits in order. -/
def TextModel.applyEdits (m : TextModel) (cs : List (List Char)) : TextModel :=
  cs.foldl TextModel.applyEdit m

/-- The `while (targetAltVersion < modelN.getAlternativeVersionId() && modelN.canUndo())`
loop of `EditStrategy.cancel`, by structural recursion on the undo stack: each
iteration that passes the version check pops one undo state (one `undo()` call). -/
def cancelLoopAux (target : Nat) (alt : Nat) (content : List Char) (disposed : Bool) :
    List (Nat × List Char) → TextModel
  | [] => ⟨alt, content, [], disposed⟩
  | (v, c) :: rest =>
    if target < alt then cancelLoopAux target v c disposed rest
    else ⟨alt, content, (v, c) :: rest, disposed⟩

def cancelLoop (target : Nat) (m : TextModel) : TextModel :=
  cancelLoopAux target m.altVersionId m.content m.disposed m.undoStack

/-- Session data consumed by `EditStrategy.cancel`. -/
structure CancelSession where
  textModelN : TextModel
  textModelNAltVersion : Nat
  textModelNSnapshotAltVersion : Option Nat

/-- `EditStrategy.cancel`: no-op on a disposed model, otherwise undo down to
the snapshot alt-version (falling back to the initial alt-version). -/
def EditStrategy.cancel (s : CancelSession) : TextModel :=
  if s.textModelN.disposed then s.textModelN
  else cancelLoop (s.textModelNSnapshotAltVersion.getD s.textModelNAltVersion) s.textModelN

lemma cancelLoopAux_all_gt (target : Nat)
    (pre : List (Nat × List Char)) (c₀ : List Char) (rest : List (Nat × List Char))
    (hpre : ∀ p ∈ pre, target < p.1) :
    ∀ (alt : Nat) (content : List Char) (disposed : Bool), target < alt →
    cancelLoopAux target alt content disposed (pre ++ (target, c₀) :: rest) =
      ⟨target, c₀, rest, disposed⟩ := by
  induction pre with
  | nil =>
    intro alt content disposed hcur
    simp only [List.nil_append, cancelLoopAux, if_pos hcur]
    rw [cancelLoopAux.eq_def]
    cases rest with
    | nil => simp
    | cons q rest => simp
  | cons p pre ih =>
    intro alt content disposed hcur
    have hp : target < p.1 := hpre p (List.mem_cons_self p pre)
    obtain ⟨v, c⟩ := p
    simp only [List.cons_append, cancelLoopAux, if_pos hcur]
    exact ih (fun q hq => hpre q (List.mem_cons_of_mem _ hq)) v c disposed hp

/-- Loop postcondition: the loop only stops when the version has come back to
(or below) the target, or no undo step remains. -/
lemma cancelLoop_post (target : Nat) (m : TextModel) :
    (cancelLoop target m).altVersionId ≤ target ∨ (cancelLoop target m).undoStack = [] := by
  unfold cancelLoop
  generalize m.altVersionId = alt, m.content = content, m.disposed = disposed,
    m.undoStack = stack
  induction stack generalizing alt content with
  | nil => exact Or.inr rfl
  | cons p rest ih =>
    obtain ⟨v, c⟩ := p
    by_cases h : target < alt
    · simpa [cancelLoopAux, if_pos h] using ih v c
    · simp only [cancelLoopAux, if_neg h]
      left
      omega

lemma applyEdits_disposed (m : TextModel) (cs : List (List Char)) :
    (m.applyEdits cs).disposed = m.disposed := by
  induction cs generalizing m with
  | nil => rfl
  | cons c cs ih => simpa [TextModel.applyEdits, TextModel.applyEdit] using ih (m.applyEdit c)

lemma applyEdits_altVersion (m : TextModel) (cs : List (List Char)) :
    (m.applyEdits cs).altVersionId = m.altVersionId + cs.length := by
  induction cs generalizing m with
  | nil => rfl
  | cons c cs ih =>
    have := ih (m.applyEdit c)
    simp only [TextModel.applyEdits] at this ⊢
    rw [List.foldl_cons, this]
    simp [TextModel.applyEdit]
    omega

lemma applyEdits_stack (m : TextModel) (c : List Char) (cs : List (List Char)) :
    ∃ pre, (m.applyEdits (c :: cs)).undoStack =
        pre ++ (m.altVersionId, m.content) :: m.undoStack ∧
      (∀ p ∈ pre, m.altVersionId < p.1) := by
  induction cs generalizing m c with
  | nil =>
    exact ⟨[], by simp [TextModel.applyEdits, TextModel.applyEdit], by simp⟩
  | cons c2 cs ih =>
    obtain ⟨pre, hstack, hpre⟩ := ih (m.applyEdit c) c2
    refine ⟨pre ++ [(m.altVersionId + 1, c)], ?_, ?_⟩
    · have h1 : m.applyEdits (c :: c2 :: cs) = (m.applyEdit c).applyEdits (c2 :: cs) := rfl
      rw [h1, hstack]
      simp [TextModel.applyEdit]
    · intro p hp
      rcases List.mem_append.mp hp with h | h
      · have := hpre p h
        simp only [TextModel.applyEdit] at this
        omega
      · simp at h
        rw [h]
        omega

/-! ## EditStrategy edit counter and undo stops (C7)

```
private _editCount: number = 0;
// in makeProgressiveChanges and in makeChanges:
if (++this._editCount === 1) { editor.pushUndoStop(); }
// in apply:
if (this._editCount > 0) { editor.pushUndoStop(); }
```
-/

inductive EditCallKind
  | makeChanges
  | makeProgressiveChanges
  deriving DecidableEq, Repr

/-- `++this._editCount === 1`: increment the counter; push the initial undo
stop exactly when the incremented counter equals 1. -/
def editStrategyStep (editCount : Nat) : Nat × Bool :=
  (editCount + 1, editCount + 1 == 1)

/-- Run a sequence of `makeChanges` / `makeProgressiveChanges` calls from a
given counter value, returning the final counter and, per call, whether that
call pushed the initial undo stop. -/
def runEditCalls (editCount : Nat) : List EditCallKind → Nat × List Bool
  | [] => (editCount, [])
  | _ :: rest =>
    let s := editStrategyStep editCount
    let r := runEditCalls s.1 rest
    (r.1, s.2 :: r.2)

/-- `apply()` pushes the final undo stop iff `this._editCount > 0`. -/
def applyPushesUndoStop (editCount : Nat) : Bool :=
  decide (0 < editCount)

lemma runEditCalls_pos (calls : List EditCallKind) (n : Nat) (hn : 0 < n) :
    (runEditCalls n calls).2 = calls.map (fun _ => false) ∧
      (runEditCalls n calls).1 = n + calls.length := by
  induction calls generalizing n with
  | nil => simp [runEditCalls]
  | cons c rest ih =>
    obtain ⟨h1, h2⟩ := ih (n + 1) (Nat.succ_pos n)
    refine ⟨?_, ?_⟩
    · simp only [runEditCalls, editStrategyStep, h1, List.map_cons]
      have : (n + 1 == 1) = false := by
        rw [beq_eq_false_iff_ne]
        omega
      simp [this]
    · simp only [runEditCalls, editStrategyStep, h2, List.length_cons]
      omega

/-! ## NotebookChatController.acceptInput request lifecycle (C8)

The relevant control-flow skeleton of `acceptInput` is

```
this._ctxHasActiveRequest.set(true);
const task = this._activeSession.provider.provideResponse(...);
let response: ReplyResponse | ErrorResponse | EmptyResponse;
try {
  this._ctxHasActiveRequest.set(true);
  const reply = await raceCancellationError(Promise.resolve(task), requestCts.token);
  if (!reply) { response = new EmptyResponse(); }
  else { response = ... new ReplyResponse ...; }
} catch (e) {
  response = new ErrorResponse(e);
} finally {
  this._ctxHasActiveRequest.set(false);
}
this._ctxHasActiveRequest.set(false);
this._activeSession.addExchange(new SessionExchange(this._activeSession.lastInput, response));
```

The provider task is modelled by its settled outcome: it either resolves with
a reply, resolves empty (falsy reply), or rejects with an error value. -/

inductive TaskOutcome
  | resolvesReply
  | resolvesEmpty
  | rejects (err : List Char)
  deriving DecidableEq, Repr

inductive ChatResponseKind
  | replyResponse
  | emptyResponse
  | errorResponse (err : List Char)
  deriving DecidableEq, Repr

structure ControllerState where
  ctxHasActiveRequest : Bool
  exchanges : List ChatResponseKind
  deriving DecidableEq, Repr

/-- The `try`/`catch` computing `response`: a rejected task is caught and
wrapped in an `ErrorResponse`. -/
def acceptInputResponse : TaskOutcome → ChatResponseKind
  | .resolvesReply => .replyResponse
  | .resolvesEmpty => .emptyResponse
  | .rejects e => .errorResponse e

/-- `acceptInput`, reduced to its effect on the has-active-request context key
and the session exchange list: set the flag, settle the task, reset the flag on
the `finally` path, then record the exchange. -/
def acceptInput (st : ControllerState) (outcome : TaskOutcome) : ControllerState :=
  let st1 : ControllerState := { st with ctxHasActiveRequest := true }
  let response := acceptInputResponse outcome
  let st2 : ControllerState := { st1 with ctxHasActiveRequest := false }
  { st2 with exchanges := st2.exchanges ++ [response] }

/-! ## Claim theorems for the notebook chat controller -/

/-- C1: for every non-empty list of edit operations reported to the
cursor-state computer of `EditStrategy.makeChanges`, the computed selection
position is an end position of one of the edits, no edit's end position is
strictly after it (it is maximal), and a step of the loop replaces the current
candidate exactly when the edit's end position is strictly after it (so on
ties the earlier candidate is kept). -/
theorem makeChanges_cursor_at_max_end (undoEdits : List UndoEdit)
    (h : undoEdits ≠ []) :
    (∃ m, computeCursor undoEdits = some m ∧
      (∃ e ∈ undoEdits, e.rangeEndPosition = m) ∧
      (∀ e ∈ undoEdits, ¬ m.isBefore e.rangeEndPosition = true)) ∧
    (∀ (l : Pos) (e : UndoEdit), cursorStep (some l) e =
      if l.isBefore e.rangeEndPosition then some e.rangeEndPosition else some l) := by
  refine ⟨?_, fun l e => rfl⟩
  match undoEdits with
  | [] => exact absurd rfl h
  | e :: rest =>
    obtain ⟨m, hm, hmem, hge, hall⟩ := computeCursor_go rest e.rangeEndPosition
    refine ⟨m, ?_, ?_, ?_⟩
    · simpa [computeCursor, cursorStep] using hm
    · rcases hmem with h1 | ⟨e1, he1, he2⟩
      · exact ⟨e, by simp, h1.symm⟩
      · exact ⟨e1, by simp [he1], he2⟩
    · intro e1 he1
      rcases List.mem_cons.mp he1 with h1 | h1
      · subst h1
        exact hge
      · exact hall e1 h1

theorem makeChanges_cursor_at_max_end_witness :
    ([⟨⟨1, 1⟩⟩, ⟨⟨2, 3⟩⟩, ⟨⟨2, 2⟩⟩] : List UndoEdit) ≠ [] ∧
    ((∃ m, computeCursor [⟨⟨1, 1⟩⟩, ⟨⟨2, 3⟩⟩, ⟨⟨2, 2⟩⟩] = some m ∧
      (∃ e ∈ ([⟨⟨1, 1⟩⟩, ⟨⟨2, 3⟩⟩, ⟨⟨2, 2⟩⟩] : List UndoEdit), e.rangeEndPosition = m) ∧
      (∀ e ∈ ([⟨⟨1, 1⟩⟩, ⟨⟨2, 3⟩⟩, ⟨⟨2, 2⟩⟩] : List UndoEdit),
        ¬ m.isBefore e.rangeEndPosition = true)) ∧
    (∀ (l : Pos) (e : UndoEdit), cursorStep (some l) e =
      if l.isBefore e.rangeEndPosition then some e.rangeEndPosition else some l)) :=
  ⟨by decide, makeChanges_cursor_at_max_end _ (by decide)⟩

/-- C2: for a session whose text model is not disposed, `EditStrategy.cancel`
undoes until the model's alternative version id is back at the session's
snapshot version (or no undo step remains); in particular a model sitting at
the snapshot version to which a sequence of edits is applied is restored to
exactly its snapshot content and version by `cancel`. -/
theorem cancel_restores_snapshot (s : CancelSession) (m0 : TextModel)
    (cs : List (List Char))
    (hnd : m0.disposed = false)
    (hsnap : s.textModelNSnapshotAltVersion.getD s.textModelNAltVersion = m0.altVersionId)
    (hmodel : s.textModelN = m0.applyEdits cs) :
    ((EditStrategy.cancel s).content = m0.content ∧
      (EditStrategy.cancel s).altVersionId = m0.altVersionId) ∧
    (∀ s2 : CancelSession, s2.textModelN.disposed = false →
      (EditStrategy.cancel s2).altVersionId ≤
          s2.textModelNSnapshotAltVersion.getD s2.textModelNAltVersion ∨
        (EditStrategy.cancel s2).undoStack = []) := by
  constructor
  · have hd : s.textModelN.disposed = false := by
      rw [hmodel, applyEdits_disposed, hnd]
    unfold EditStrategy.cancel
    rw [hd]
    simp only [Bool.false_eq_true, if_false, hsnap, hmodel]
    match cs with
    | [] =>
      simp only [TextModel.applyEdits, List.foldl_nil]
      unfold cancelLoop
      rw [cancelLoopAux.eq_def]
      cases hstack : m0.undoStack with
      | nil => simp
      | cons p rest => obtain ⟨v, c⟩ := p; simp
    | c :: cs =>
      obtain ⟨pre, hstack, hpre⟩ := applyEdits_stack m0 c cs
      unfold cancelLoop
      rw [hstack]
      have hv : m0.altVersionId < (m0.applyEdits (c :: cs)).altVersionId := by
        rw [applyEdits_altVersion]
        simp
      rw [cancelLoopAux_all_gt m0.altVersionId pre m0.content m0.undoStack hpre
        (m0.applyEdits (c :: cs)).altVersionId (m0.applyEdits (c :: cs)).content
        (m0.applyEdits (c :: cs)).disposed hv]
      exact ⟨rfl, rfl⟩
  · intro s2 hd2
    unfold EditStrategy.cancel
    rw [hd2]
    simp only [Bool.false_eq_true, if_false]
    exact cancelLoop_post _ _

theorem cancel_restores_snapshot_witness :
    ((⟨5, ['s'], [], false⟩ : TextModel).disposed = false ∧
      (⟨(⟨5, ['s'], [], false⟩ : TextModel).applyEdits [['a'], ['b']], 1, some 5⟩ :
          CancelSession).textModelNSnapshotAltVersion.getD 1 = 5 ∧
      (⟨(⟨5, ['s'], [], false⟩ : TextModel).applyEdits [['a'], ['b']], 1, some 5⟩ :
          CancelSession).textModelN =
        (⟨5, ['s'], [], false⟩ : TextModel).applyEdits [['a'], ['b']]) ∧
    ((EditStrategy.cancel
        ⟨(⟨5, ['s'], [], false⟩ : TextModel).applyEdits [['a'], ['b']], 1, some 5⟩).content =
        ['s'] ∧
      (EditStrategy.cancel
        ⟨(⟨5, ['s'], [], false⟩ : TextModel).applyEdits [['a'], ['b']], 1, some 5⟩).altVersionId =
        5) ∧
    (∀ s2 : CancelSession, s2.textModelN.disposed = false →
      (EditStrategy.cancel s2).altVersionId ≤
          s2.textModelNSnapshotAltVersion.getD s2.textModelNAltVersion ∨
        (EditStrategy.cancel s2).undoStack = []) :=
  ⟨⟨rfl, rfl, rfl⟩,
    cancel_restores_snapshot ⟨(⟨5, ['s'], [], false⟩ : TextModel).applyEdits [['a'], ['b']], 1,
      some 5⟩ ⟨5, ['s'], [], false⟩ [['a'], ['b']] rfl rfl rfl⟩

/-- C7: starting from a fresh `EditStrategy` (counter 0), across any sequence
of `makeChanges` / `makeProgressiveChanges` calls the initial undo stop is
pushed by the first call and by no later call, and `apply()` pushes the final
undo stop iff at least one edit call occurred. -/
theorem editStrategy_undo_stop_discipline (calls : List EditCallKind) :
    ((runEditCalls 0 calls).2 = match calls with
      | [] => []
      | _ :: rest => true :: rest.map (fun _ => false)) ∧
    applyPushesUndoStop (runEditCalls 0 calls).1 = !calls.isEmpty := by
  match calls with
  | [] => exact ⟨rfl, rfl⟩
  | c :: rest =>
    obtain ⟨h1, h2⟩ := runEditCalls_pos rest 1 Nat.one_pos
    refine ⟨?_, ?_⟩
    · simp [runEditCalls, editStrategyStep, h1]
    · simp only [runEditCalls, editStrategyStep, h2, applyPushesUndoStop, List.isEmpty_cons]
      simp

/-- C8: whatever the settled outcome of the provider task (reply, empty or
rejection), `acceptInput` leaves the has-active-request context key false when
it returns, and a rejected provider task is caught and recorded as an
`ErrorResponse` exchange instead of being propagated. -/
theorem acceptInput_resets_flag_and_wraps_errors (st : ControllerState) (e : List Char) :
    (∀ outcome, (acceptInput st outcome).ctxHasActiveRequest = false) ∧
    (acceptInput st (.rejects e)).exchanges = st.exchanges ++ [.errorResponse e] := by
  refine ⟨fun outcome => ?_, rfl⟩
  cases outcome <;> rfl

/-! ## SCM view pane: tree elements (scmViewPane.ts)

`TreeElement` is the tagged union over repositories, the inline commit input
box, the action button, resource groups, resources, resource folder nodes,
history item groups, history items, history item changes, history item change
folder nodes and view separators.  Each constructor carries exactly the data
the sorter, the identity function and the data source read from it; all
strings (provider ids, group ids, item ids, URIs, names, tooltips) are
`List Char`. -/

inductive TreeElement
  | repository (providerId : List Char)
  | inputBox (providerId : List Char)
  | actionButton (providerId : List Char)
  | resourceGroup (providerId groupId : List Char)
  | resource (providerId groupId sourceUri : List Char) (tooltip : Option (List Char))
  | resourceNode (providerId groupId uri name : List Char) (childrenCount : Nat)
  | historyItemGroup (providerId groupId : List Char)
  | historyItem (providerId groupId itemId : List Char) (parentIds : List (List Char))
  | historyItemChange (providerId groupId itemId uri : List Char)
  | historyItemChangeNode (providerId groupId itemId uri name : List Char)
      (childrenCount : Nat)
  | separator (providerId : List Char)
  deriving DecidableEq, Repr

namespace TreeElement

def isSCMRepository : TreeElement → Bool
  | .repository _ => true
  | _ => false

def isSCMInput : TreeElement → Bool
  | .inputBox _ => true
  | _ => false

def isSCMActionButton : TreeElement → Bool
  | .actionButton _ => true
  | _ => false

def isSCMResourceGroup : TreeElement → Bool
  | .resourceGroup _ _ => true
  | _ => false

def isSCMResource : TreeElement → Bool
  | .resource _ _ _ _ => true
  | _ => false

/-- `isSCMResourceNode`: a resource node whose context is a resource group. -/
def isSCMResourceNode : TreeElement → Bool
  | .resourceNode _ _ _ _ _ => true
  | _ => false

def isSCMHistoryItemGroupTreeElement : TreeElement → Bool
  | .historyItemGroup _ _ => true
  | _ => false

def isSCMHistoryItemTreeElement : TreeElement → Bool
  | .historyItem _ _ _ _ => true
  | _ => false

def isSCMHistoryItemChangeTreeElement : TreeElement → Bool
  | .historyItemChange _ _ _ _ => true
  | _ => false

/-- `isSCMHistoryItemChangeNode`: a resource node whose context is a history
item. -/
def isSCMHistoryItemChangeNode : TreeElement → Bool
  | .historyItemChangeNode _ _ _ _ _ _ => true
  | _ => false

def isSCMViewSeparator : TreeElement → Bool
  | .separator _ => true
  | _ => false

/-- `ResourceTree.isResourceNode`: true for either kind of folder node. -/
def isResourceNode : TreeElement → Bool
  | .resourceNode _ _ _ _ _ => true
  | .historyItemChangeNode _ _ _ _ _ _ => true
  | _ => false

end TreeElement

/-! ## View mode / sort key and string comparators -/

inductive ViewMode
  | list
  | tree
  deriving DecidableEq, Repr

inductive ViewSortKey
  | path
  | name
  | status
  deriving DecidableEq, Repr

/-- Modelled from the spec: the string comparators `comparePaths`,
`compareFileNames` and `compare` (from `vs/base/common/comparers` and
`vs/base/common/strings`, not part of the excerpted sources; the spec
describes them as "lexicographic file-path comparison" and "name-comparison")
are modelled as three-way lexicographic character comparison. -/
def lexCompare : List Char → List Char → Int
  | [], [] => 0
  | [], _ :: _ => -1
  | _ :: _, [] => 1
  | a :: as, b :: bs => if a < b then -1 else if b < a then 1 else lexCompare as bs

/-- `basename(uri)`: the final path segment (characters after the last `/`). -/
def pathBasename (uri : List Char) : List Char :=
  (uri.reverse.takeWhile (fun c => c ≠ '/')).reverse

/-- `uri.fsPath`, modelled as the URI string itself. -/
def uriFsPath (uri : List Char) : List Char := uri

/-- `(x as ISCMResource).sourceUri`: `none` models the JavaScript `undefined`
obtained when the cast is wrong (using it then raises a `TypeError`). -/
def sourceUriOf : TreeElement → Option (List Char)
  | .resource _ _ uri _ => some uri
  | _ => none

/-- `(x as ISCMResource).decorations.tooltip ?? ''`: `none` models the
`TypeError` raised when `decorations` is `undefined` on a non-resource. -/
def tooltipOf : TreeElement → Option (List Char)
  | .resource _ _ _ tooltip => some (tooltip.getD [])
  | _ => none

/-- `x.uri` of a history item change element or change folder node. -/
def changeUriOf : TreeElement → Option (List Char)
  | .historyItemChange _ _ _ uri => some uri
  | .historyItemChangeNode _ _ _ uri _ _ => some uri
  | _ => none

/-- `isSCMHistoryItemChangeNode(x) ? x.name : basename(x.uri)`. -/
def changeNameOf : TreeElement → Option (List Char)
  | .historyItemChange _ _ _ uri => some (pathBasename uri)
  | .historyItemChangeNode _ _ _ _ name _ => some name
  | _ => none

/-- `ResourceTree.isResourceNode(x) ? x.name : basename((x as ISCMResource).sourceUri)`. -/
def resourceNameOf : TreeElement → Option (List Char)
  | .resourceNode _ _ _ name _ => some name
  | .historyItemChangeNode _ _ _ _ name _ => some name
  | x => (sourceUriOf x).map pathBasename

attribute [simp] TreeElement.isSCMRepository TreeElement.isSCMInput
  TreeElement.isSCMActionButton TreeElement.isSCMResourceGroup TreeElement.isSCMResource
  TreeElement.isSCMResourceNode TreeElement.isSCMHistoryItemGroupTreeElement
  TreeElement.isSCMHistoryItemTreeElement TreeElement.isSCMHistoryItemChangeTreeElement
  TreeElement.isSCMHistoryItemChangeNode TreeElement.isSCMViewSeparator
  TreeElement.isResourceNode sourceUriOf tooltipOf changeUriOf changeNameOf resourceNameOf

/-! ## SCMTreeSorter.compare (C3, C4)

A faithful transcription of `SCMTreeSorter.compare`; `throw new Error(...)` is
`Except.error` and a JavaScript `TypeError` from dereferencing `undefined`
(a wrong `as ISCMResource` cast) is `Except.error "TypeError"`. -/

open TreeElement in
def SCMTreeSorter.compare (viewMode : ViewMode) (viewSortKey : ViewSortKey)
    (one other : TreeElement) : Except String Int :=
  if isSCMRepository one then
    if !isSCMRepository other then .error "Invalid comparison" else .ok 0
  else if isSCMInput one then .ok (-1)
  else if isSCMInput other then .ok 1
  else if isSCMActionButton one then .ok (-1)
  else if isSCMActionButton other then .ok 1
  else if isSCMResourceGroup one then .ok (if isSCMResourceGroup other then 0 else -1)
  else if isSCMViewSeparator one then .ok (if isSCMResourceGroup other then 1 else -1)
  else if isSCMHistoryItemGroupTreeElement one then
    .ok (if isSCMHistoryItemGroupTreeElement other then 0 else 1)
  else if isSCMHistoryItemTreeElement one then
    if !isSCMHistoryItemTreeElement other then .error "Invalid comparison" else .ok 0
  else if isSCMHistoryItemChangeTreeElement one || isSCMHistoryItemChangeNode one then
    match viewMode with
    | .list =>
      if !isSCMHistoryItemChangeTreeElement other then .error "Invalid comparison"
      else
        match changeUriOf one, changeUriOf other with
        | some u1, some u2 => .ok (lexCompare (uriFsPath u1) (uriFsPath u2))
        | _, _ => .error "TypeError"
    | .tree =>
      if !isSCMHistoryItemChangeTreeElement other && !isSCMHistoryItemChangeNode other then
        .error "Invalid comparison"
      else
        match changeNameOf one, changeNameOf other with
        | some n1, some n2 => .ok (lexCompare n1 n2)
        | _, _ => .error "TypeError"
  else
    match viewMode with
    | .list =>
      if viewSortKey = ViewSortKey.name then
        match sourceUriOf one, sourceUriOf other with
        | some u1, some u2 => .ok (lexCompare (pathBasename u1) (pathBasename u2))
        | _, _ => .error "TypeError"
      else if viewSortKey = ViewSortKey.status then
        match tooltipOf one, tooltipOf other with
        | some t1, some t2 =>
          if t1 ≠ t2 then .ok (lexCompare t1 t2)
          else
            match sourceUriOf one, sourceUriOf other with
            | some u1, some u2 => .ok (lexCompare (uriFsPath u1) (uriFsPath u2))
            | _, _ => .error "TypeError"
        | _, _ => .error "TypeError"
      else
        match sourceUriOf one, sourceUriOf other with
        | some u1, some u2 => .ok (lexCompare (uriFsPath u1) (uriFsPath u2))
        | _, _ => .error "TypeError"
    | .tree =>
      if isResourceNode one ≠ isResourceNode other then
        .ok (if isResourceNode one then -1 else 1)
      else
        match resourceNameOf one, resourceNameOf other with
        | some n1, some n2 => .ok (lexCompare n1 n2)
        | _, _ => .error "TypeError"

/-! ## Kinds and the sorter's kind chain -/

inductive ElementKind
  | repository
  | inputBox
  | actionButton
  | resourceGroup
  | resource
  | resourceNode
  | historyItemGroup
  | historyItem
  | historyItemChange
  | historyItemChangeNode
  | separator
  deriving DecidableEq, Repr

def TreeElement.kind : TreeElement → ElementKind
  | .repository _ => .repository
  | .inputBox _ => .inputBox
  | .actionButton _ => .actionButton
  | .resourceGroup _ _ => .resourceGroup
  | .resource _ _ _ _ => .resource
  | .resourceNode _ _ _ _ _ => .resourceNode
  | .historyItemGroup _ _ => .historyItemGroup
  | .historyItem _ _ _ _ => .historyItem
  | .historyItemChange _ _ _ _ => .historyItemChange
  | .historyItemChangeNode _ _ _ _ _ _ => .historyItemChangeNode
  | .separator _ => .separator

/-- Rank of a kind in the chain input-box < action-button < resource-group <
separator < history-item-group that `compare` realises between distinct
non-repository kinds. -/
def chainRank : ElementKind → Option Nat
  | .inputBox => some 0
  | .actionButton => some 1
  | .resourceGroup => some 2
  | .separator => some 3
  | .historyItemGroup => some 4
  | _ => none

lemma lexCompare_antisymm (a b : List Char) : lexCompare b a = -lexCompare a b := by
  induction a generalizing b with
  | nil => cases b <;> simp [lexCompare]
  | cons x xs ih =>
    cases b with
    | nil => simp [lexCompare]
    | cons y ys =>
      simp only [lexCompare]
      rcases lt_trichotomy x y with h | h | h
      · simp only [if_pos h, if_neg (lt_asymm h)]
        try norm_num
      · subst h
        simp only [if_neg (lt_irrefl x)]
        exact ih ys
      · simp only [if_pos h, if_neg (lt_asymm h)]
        try norm_num

lemma lexCompare_self (a : List Char) : lexCompare a a = 0 := by
  induction a with
  | nil => rfl
  | cons x xs ih => simp [lexCompare, ih]

/-- The value `compare` returns on two resources, by view mode and sort key. -/
def resourceCompareValue (mode : ViewMode) (key : ViewSortKey)
    (u : List Char) (tt : Option (List Char))
    (u' : List Char) (tt' : Option (List Char)) : Int :=
  match mode, key with
  | .list, .name => lexCompare (pathBasename u) (pathBasename u')
  | .list, .status =>
    if tt.getD [] ≠ tt'.getD [] then lexCompare (tt.getD []) (tt'.getD [])
    else lexCompare (uriFsPath u) (uriFsPath u')
  | .list, .path => lexCompare (uriFsPath u) (uriFsPath u')
  | .tree, _ => lexCompare (pathBasename u) (pathBasename u')

lemma compare_resource_resource (mode : ViewMode) (key : ViewSortKey)
    (p g u : List Char) (tt : Option (List Char))
    (p' g' u' : List Char) (tt' : Option (List Char)) :
    SCMTreeSorter.compare mode key (.resource p g u tt) (.resource p' g' u' tt') =
      .ok (resourceCompareValue mode key u tt u' tt') := by
  cases mode <;> cases key <;> try rfl
  by_cases h : tt.getD [] = tt'.getD [] <;>
    simp [SCMTreeSorter.compare, resourceCompareValue, h]

lemma resourceCompareValue_antisymm (mode : ViewMode) (key : ViewSortKey)
    (u : List Char) (tt : Option (List Char))
    (u' : List Char) (tt' : Option (List Char)) :
    resourceCompareValue mode key u' tt' u tt = -resourceCompareValue mode key u tt u' tt' := by
  cases mode <;> cases key <;> simp only [resourceCompareValue] <;>
    try rw [lexCompare_antisymm]
  by_cases h : tt.getD [] = tt'.getD []
  · have h' : ¬ tt'.getD [] ≠ tt.getD [] := fun hh => hh h.symm
    have h2 : ¬ tt.getD [] ≠ tt'.getD [] := fun hh => hh h
    rw [if_neg h', if_neg h2, lexCompare_antisymm]
  · have h' : tt'.getD [] ≠ tt.getD [] := fun hh => h hh.symm
    rw [if_pos h', if_pos h, lexCompare_antisymm]

lemma ok_zero_antisymm {x y : Except String Int} (hx : x = .ok 0) (hy : y = .ok 0) :
    ∀ i : Int, x = .ok i → y = .ok (-i) := by
  intro i hi
  rw [hx] at hi
  injection hi with h
  subst h
  simpa using hy

lemma ok_lex_antisymm {x y : Except String Int} (a b : List Char)
    (hx : x = .ok (lexCompare a b)) (hy : y = .ok (lexCompare b a)) :
    ∀ i : Int, x = .ok i → y = .ok (-i) := by
  intro i hi
  rw [hx] at hi
  injection hi with h
  subst h
  rw [hy, lexCompare_antisymm]

lemma ok_rcv_antisymm {x y : Except String Int} (mode : ViewMode) (key : ViewSortKey)
    (u : List Char) (tt : Option (List Char)) (u' : List Char) (tt' : Option (List Char))
    (hx : x = .ok (resourceCompareValue mode key u tt u' tt'))
    (hy : y = .ok (resourceCompareValue mode key u' tt' u tt)) :
    ∀ i : Int, x = .ok i → y = .ok (-i) := by
  intro i hi
  rw [hx] at hi
  injection hi with h
  subst h
  rw [hy, resourceCompareValue_antisymm]

lemma error_no_ok {x : Except String Int} (e : String) (hx : x = .error e)
    {y : Except String Int} :
    ∀ i : Int, x = .ok i → y = .ok (-i) := by
  intro i hi
  rw [hx] at hi
  exact Except.noConfusion hi

/-! ## Claim theorems for SCMTreeSorter.compare -/

/-- C3 counterexample: two distinct input-box elements compare as `-1` in both
orders, so `compare(a,b)` and `compare(b,a)` do not have opposite signs. -/
theorem compare_inputBox_both_neg :
    SCMTreeSorter.compare ViewMode.list ViewSortKey.path
        (TreeElement.inputBox ['a']) (TreeElement.inputBox ['b']) = Except.ok (-1) ∧
    SCMTreeSorter.compare ViewMode.list ViewSortKey.path
        (TreeElement.inputBox ['b']) (TreeElement.inputBox ['a']) = Except.ok (-1) ∧
    TreeElement.inputBox ['a'] ≠ TreeElement.inputBox ['b'] :=
  ⟨rfl, rfl, by decide⟩

/-- C3 (amended): for same-kind pairs, whenever `compare` returns a number on
`(a, b)` it returns its negation on `(b, a)` — except for the input-box,
action-button and separator kinds, where `compare` returns `-1` in both
orders (an antisymmetry violation); results are deterministic since the
comparator is a pure function of the mode, the sort key and the pair. -/
theorem compare_same_kind_discipline (mode : ViewMode) (key : ViewSortKey)
    (a b : TreeElement) (hk : a.kind = b.kind) :
    (a.kind ≠ ElementKind.inputBox → a.kind ≠ ElementKind.actionButton →
      a.kind ≠ ElementKind.separator →
      ∀ i, SCMTreeSorter.compare mode key a b = .ok i →
        SCMTreeSorter.compare mode key b a = .ok (-i)) ∧
    (a.kind = ElementKind.inputBox ∨ a.kind = ElementKind.actionButton ∨
        a.kind = ElementKind.separator →
      SCMTreeSorter.compare mode key a b = .ok (-1) ∧
      SCMTreeSorter.compare mode key b a = .ok (-1)) := by
  cases a <;> cases b <;> (try (simp only [TreeElement.kind] at hk; exact ElementKind.noConfusion hk))
  case repository.repository p q =>
    refine ⟨fun _ _ _ => ok_zero_antisymm rfl rfl, fun h => ?_⟩
    rcases h with h | h | h <;> simp [TreeElement.kind] at h
  case inputBox.inputBox p q =>
    exact ⟨fun h1 _ _ => absurd rfl h1, fun _ => ⟨rfl, rfl⟩⟩
  case actionButton.actionButton p q =>
    exact ⟨fun _ h2 _ => absurd rfl h2, fun _ => ⟨rfl, rfl⟩⟩
  case separator.separator p q =>
    exact ⟨fun _ _ h3 => absurd rfl h3, fun _ => ⟨rfl, rfl⟩⟩
  case resourceGroup.resourceGroup p g p' g' =>
    refine ⟨fun _ _ _ => ok_zero_antisymm rfl rfl, fun h => ?_⟩
    rcases h with h | h | h <;> simp [TreeElement.kind] at h
  case historyItemGroup.historyItemGroup p g p' g' =>
    refine ⟨fun _ _ _ => ok_zero_antisymm rfl rfl, fun h => ?_⟩
    rcases h with h | h | h <;> simp [TreeElement.kind] at h
  case historyItem.historyItem p g it pa p' g' it' pa' =>
    refine ⟨fun _ _ _ => ok_zero_antisymm rfl rfl, fun h => ?_⟩
    rcases h with h | h | h <;> simp [TreeElement.kind] at h
  case resource.resource p g u tt p' g' u' tt' =>
    refine ⟨fun _ _ _ => ok_rcv_antisymm mode key u tt u' tt'
      (compare_resource_resource mode key p g u tt p' g' u' tt')
      (compare_resource_resource mode key p' g' u' tt' p g u tt), fun h => ?_⟩
    rcases h with h | h | h <;> simp [TreeElement.kind] at h
  case resourceNode.resourceNode p g u n c p' g' u' n' c' =>
    refine ⟨fun _ _ _ => ?_, fun h => ?_⟩
    · cases mode with
      | list => cases key <;> exact error_no_ok _ rfl
      | tree => exact ok_lex_antisymm n n' rfl rfl
    · rcases h with h | h | h <;> simp [TreeElement.kind] at h
  case historyItemChange.historyItemChange p g it u p' g' it' u' =>
    refine ⟨fun _ _ _ => ?_, fun h => ?_⟩
    · cases mode with
      | list => exact ok_lex_antisymm (uriFsPath u) (uriFsPath u') rfl rfl
      | tree => exact ok_lex_antisymm (pathBasename u) (pathBasename u') rfl rfl
    · rcases h with h | h | h <;> simp [TreeElement.kind] at h
  case historyItemChangeNode.historyItemChangeNode p g it u n c p' g' it' u' n' c' =>
    refine ⟨fun _ _ _ => ?_, fun h => ?_⟩
    · cases mode with
      | list => exact error_no_ok _ rfl
      | tree => exact ok_lex_antisymm n n' rfl rfl
    · rcases h with h | h | h <;> simp [TreeElement.kind] at h

theorem compare_same_kind_discipline_witness :
    (TreeElement.resource ['p'] ['g'] ['u'] none).kind =
        (TreeElement.resource ['p'] ['g'] ['v'] none).kind ∧
    (((TreeElement.resource ['p'] ['g'] ['u'] none).kind ≠ ElementKind.inputBox →
      (TreeElement.resource ['p'] ['g'] ['u'] none).kind ≠ ElementKind.actionButton →
      (TreeElement.resource ['p'] ['g'] ['u'] none).kind ≠ ElementKind.separator →
      ∀ i, SCMTreeSorter.compare ViewMode.list ViewSortKey.path
          (TreeElement.resource ['p'] ['g'] ['u'] none)
          (TreeElement.resource ['p'] ['g'] ['v'] none) = .ok i →
        SCMTreeSorter.compare ViewMode.list ViewSortKey.path
          (TreeElement.resource ['p'] ['g'] ['v'] none)
          (TreeElement.resource ['p'] ['g'] ['u'] none) = .ok (-i)) ∧
    ((TreeElement.resource ['p'] ['g'] ['u'] none).kind = ElementKind.inputBox ∨
        (TreeElement.resource ['p'] ['g'] ['u'] none).kind = ElementKind.actionButton ∨
        (TreeElement.resource ['p'] ['g'] ['u'] none).kind = ElementKind.separator →
      SCMTreeSorter.compare ViewMode.list ViewSortKey.path
        (TreeElement.resource ['p'] ['g'] ['u'] none)
        (TreeElement.resource ['p'] ['g'] ['v'] none) = .ok (-1) ∧
      SCMTreeSorter.compare ViewMode.list ViewSortKey.path
        (TreeElement.resource ['p'] ['g'] ['v'] none)
        (TreeElement.resource ['p'] ['g'] ['u'] none) = .ok (-1))) :=
  ⟨rfl, compare_same_kind_discipline ViewMode.list ViewSortKey.path
    (TreeElement.resource ['p'] ['g'] ['u'] none)
    (TreeElement.resource ['p'] ['g'] ['v'] none) rfl⟩

/-- C4 counterexample: a repository compared with an input-box raises
`Invalid comparison` instead of returning the negative number the claimed
chain repository < input-box requires. -/
theorem compare_repository_inputBox_error :
    SCMTreeSorter.compare ViewMode.list ViewSortKey.path
      (TreeElement.repository ['a']) (TreeElement.inputBox ['b']) =
      Except.error "Invalid comparison" := rfl

/-- C4 (amended): among the kinds input-box < action-button < resource-group <
separator < history-item-group (ranked 0-4 by `chainRank`), `compare` on two
elements of distinct kinds returns a negative number exactly when the first
argument's kind precedes the second's; a repository as first argument against
any of these kinds raises `Invalid comparison`; against a repository as second
argument, input-box, action-button, resource-group and separator elements
return `-1` while a history-item-group element returns `1`. -/
theorem compare_cross_kind_chain (mode : ViewMode) (key : ViewSortKey)
    (a b : TreeElement) (ra rb : Nat)
    (ha : chainRank a.kind = some ra) (hb : chainRank b.kind = some rb)
    (hne : ra ≠ rb) :
    SCMTreeSorter.compare mode key a b = .ok (if ra < rb then -1 else 1) ∧
    (∀ p, SCMTreeSorter.compare mode key (.repository p) b = .error "Invalid comparison") ∧
    (∀ p, SCMTreeSorter.compare mode key a (.repository p) =
      .ok (if a.kind = ElementKind.historyItemGroup then 1 else -1)) := by
  cases a <;> cases b <;>
    simp only [TreeElement.kind, chainRank] at ha hb <;>
    first
      | exact Option.noConfusion ha
      | exact Option.noConfusion hb
      | (injection ha with ha1; injection hb with hb1; subst ha1; subst hb1;
         first
           | exact absurd rfl hne
           | exact ⟨rfl, fun p => rfl, fun p => rfl⟩)

theorem compare_cross_kind_chain_witness :
    (chainRank (TreeElement.inputBox ['a']).kind = some 0 ∧
      chainRank (TreeElement.actionButton ['b']).kind = some 1 ∧ (0 : Nat) ≠ 1) ∧
    (SCMTreeSorter.compare ViewMode.list ViewSortKey.path (TreeElement.inputBox ['a'])
        (TreeElement.actionButton ['b']) = .ok (if (0 : Nat) < 1 then -1 else 1) ∧
      (∀ p, SCMTreeSorter.compare ViewMode.list ViewSortKey.path (.repository p)
        (TreeElement.actionButton ['b']) = .error "Invalid comparison") ∧
      (∀ p, SCMTreeSorter.compare ViewMode.list ViewSortKey.path
        (TreeElement.inputBox ['a']) (.repository p) =
        .ok (if (TreeElement.inputBox ['a']).kind = ElementKind.historyItemGroup
          then 1 else -1))) :=
  ⟨⟨rfl, rfl, by decide⟩,
    compare_cross_kind_chain ViewMode.list ViewSortKey.path
      (TreeElement.inputBox ['a']) (TreeElement.actionButton ['b']) 0 1 rfl rfl (by decide)⟩

/-! ## SCMTreeDataSource.hasChildren (C10)

The input is `ISCMViewService | TreeElement`; any runtime value outside the
union (final `else`) throws `hasChildren not implemented.`. -/

inductive DataSourceInput
  | viewService (visibleRepositoryCount : Nat)
  | element (e : TreeElement)
  | unknownValue
  deriving DecidableEq, Repr

/-- `childrenCount` of a resource node (either kind of folder node). -/
def childrenCountOf : TreeElement → Nat
  | .resourceNode _ _ _ _ c => c
  | .historyItemChangeNode _ _ _ _ _ c => c
  | _ => 0

open TreeElement in
def SCMTreeDataSource.hasChildren : DataSourceInput → Except String Bool
  | .viewService n => .ok (decide (n ≠ 0))
  | .element e =>
    if isSCMRepository e then .ok true
    else if isSCMInput e then .ok false
    else if isSCMActionButton e then .ok false
    else if isSCMResourceGroup e then .ok true
    else if isSCMResource e then .ok false
    else if isResourceNode e then .ok (decide (0 < childrenCountOf e))
    else if isSCMHistoryItemGroupTreeElement e then .ok true
    else if isSCMHistoryItemTreeElement e then .ok true
    else if isSCMHistoryItemChangeTreeElement e then .ok false
    else if isSCMViewSeparator e then .ok false
    else .error "hasChildren not implemented."
  | .unknownValue => .error "hasChildren not implemented."

/-- C10 counterexample: the history-item-change folder node is a
`TreeElement` union member outside the claim's enumeration, so the claim's
final clause says `hasChildren` throws on it; instead the
`ResourceTree.isResourceNode` branch returns `childrenCount > 0` (here
`.ok true` for a node with one child, not the error value). -/
theorem hasChildren_changeNode_not_throw :
    SCMTreeDataSource.hasChildren
      (.element (.historyItemChangeNode ['p'] ['g'] ['i'] ['u'] ['n'] 1)) =
      .ok true ∧
    (Except.ok true : Except String Bool) ≠
      .error "hasChildren not implemented." :=
  ⟨rfl, fun h => Except.noConfusion h⟩

/-- C10 (amended): `hasChildren` classifies purely by kind: false for input
boxes, action buttons, resources, history-item changes and separators; true
for repositories, resource groups, history-item groups and history items; for
a folder node of either kind — a resource folder node or a history-item-change
folder node — true iff `childrenCount > 0`; for the view-service root true iff
some repository is visible; and an error for any value outside the union. -/
theorem hasChildren_classification :
    (∀ p, SCMTreeDataSource.hasChildren (.element (.inputBox p)) = .ok false) ∧
    (∀ p, SCMTreeDataSource.hasChildren (.element (.actionButton p)) = .ok false) ∧
    (∀ p g u tt, SCMTreeDataSource.hasChildren (.element (.resource p g u tt)) = .ok false) ∧
    (∀ p g i u, SCMTreeDataSource.hasChildren (.element (.historyItemChange p g i u)) =
      .ok false) ∧
    (∀ p, SCMTreeDataSource.hasChildren (.element (.separator p)) = .ok false) ∧
    (∀ p, SCMTreeDataSource.hasChildren (.element (.repository p)) = .ok true) ∧
    (∀ p g, SCMTreeDataSource.hasChildren (.element (.resourceGroup p g)) = .ok true) ∧
    (∀ p g, SCMTreeDataSource.hasChildren (.element (.historyItemGroup p g)) = .ok true) ∧
    (∀ p g i pa, SCMTreeDataSource.hasChildren (.element (.historyItem p g i pa)) =
      .ok true) ∧
    (∀ p g u n c, SCMTreeDataSource.hasChildren (.element (.resourceNode p g u n c)) =
      .ok (decide (0 < c))) ∧
    (∀ p g i u n c, SCMTreeDataSource.hasChildren
      (.element (.historyItemChangeNode p g i u n c)) = .ok (decide (0 < c))) ∧
    (∀ n, SCMTreeDataSource.hasChildren (.viewService n) = .ok (decide (n ≠ 0))) ∧
    SCMTreeDataSource.hasChildren .unknownValue = .error "hasChildren not implemented." :=
  ⟨fun _ => rfl, fun _ => rfl, fun _ _ _ _ => rfl, fun _ _ _ _ => rfl, fun _ => rfl,
    fun _ => rfl, fun _ _ => rfl, fun _ _ => rfl, fun _ _ _ _ => rfl,
    fun _ _ _ _ _ => rfl, fun _ _ _ _ _ _ => rfl, fun _ => rfl, rfl⟩

/-! ## History-item-change cache key (C9)

`SCMTreeDataSource.getHistoryItemChanges` caches `provideHistoryItemChanges`
results under the key
`${element.id}/${historyItemParentId}` where `historyItemParentId` is
`element.parentIds[0]` if present, else `undefined` (which the template
literal interpolates as the string `undefined`). -/

def historyItemChangeCacheKey (itemId : List Char) (parentIds : List (List Char)) :
    List Char :=
  itemId ++ '/' :: (match parentIds with
    | [] => ['u', 'n', 'd', 'e', 'f', 'i', 'n', 'e', 'd']
    | p :: _ => p)

/-- C9: the cache key is not injective: the item ids `a/b` (parent `c`) and
`a` (parent `b/c`) — identifiers containing the `/` delimiter — have distinct
(id, first parent id) pairs but the same cache key `a/b/c`, so their
`provideHistoryItemChanges` results share one cache slot. -/
theorem historyItemChangeCacheKey_not_injective :
    historyItemChangeCacheKey ['a', '/', 'b'] [['c']] =
      historyItemChangeCacheKey ['a'] [['b', '/', 'c']] ∧
    (['a', '/', 'b'], (['c'] : List Char)) ≠ (['a'], ['b', '/', 'c']) ∧
    '/' ∈ ['a', '/', 'b'] ∧ '/' ∈ ['b', '/', 'c'] := by decide

/-! ## getSCMResourceId, the tree identity function (C5)

Template literals are concatenation on `List Char`; `uri.toString()` is the
URI string itself; `parentIds.join(',')` is `joinComma`. -/

/-- `Array.prototype.join(',')`. -/
def joinComma : List (List Char) → List Char
  | [] => []
  | [x] => x
  | x :: xs => x ++ ',' :: joinComma xs

def getSCMResourceId : TreeElement → List Char
  | .repository p =>
    ['r', 'e', 'p', 'o', ':'] ++ p
  | .inputBox p =>
    ['i', 'n', 'p', 'u', 't', ':'] ++ p
  | .actionButton p =>
    ['a', 'c', 't', 'i', 'o', 'n', 'B', 'u', 't', 't', 'o', 'n', ':'] ++ p
  | .resourceGroup p g =>
    ['r', 'e', 's', 'o', 'u', 'r', 'c', 'e', 'G', 'r', 'o', 'u', 'p', ':'] ++
      (p ++ '/' :: g)
  | .resource p g u _ =>
    ['r', 'e', 's', 'o', 'u', 'r', 'c', 'e', ':'] ++ (p ++ '/' :: (g ++ '/' :: u))
  | .resourceNode p g u _ _ =>
    ['f', 'o', 'l', 'd', 'e', 'r', ':'] ++
      (p ++ '/' :: (g ++ '/' :: (['$', 'F', 'O', 'L', 'D', 'E', 'R'] ++ '/' :: u)))
  | .historyItemGroup p g =>
    ['h', 'i', 's', 't', 'o', 'r', 'y', 'I', 't', 'e', 'm', 'G', 'r', 'o', 'u', 'p', ':'] ++
      (p ++ '/' :: g)
  | .historyItem p g i pa =>
    ['h', 'i', 's', 't', 'o', 'r', 'y', 'I', 't', 'e', 'm', ':'] ++
      (p ++ '/' :: (g ++ '/' :: (i ++ '/' :: joinComma pa)))
  | .historyItemChange p g i u =>
    ['h', 'i', 's', 't', 'o', 'r', 'y', 'I', 't', 'e', 'm', 'C', 'h', 'a', 'n', 'g', 'e',
      ':'] ++ (p ++ '/' :: (g ++ '/' :: (i ++ '/' :: u)))
  | .historyItemChangeNode p g i u _ _ =>
    ['f', 'o', 'l', 'd', 'e', 'r', ':'] ++
      (p ++ '/' :: (g ++ '/' :: (i ++ '/' ::
        (['$', 'F', 'O', 'L', 'D', 'E', 'R'] ++ '/' :: u))))
  | .separator p =>
    ['s', 'e', 'p', 'a', 'r', 'a', 't', 'o', 'r', ':'] ++ p

/-- Identifier components are free of the `/` delimiter (and, for history item
parent ids, of the `,` join separator and emptiness; for a history item id of
a change folder node, distinct from the literal `$FOLDER` marker).  URIs are
unconstrained: they sit at the end of the id string. -/
def WellFormedId : TreeElement → Prop
  | .repository _ => True
  | .inputBox _ => True
  | .actionButton _ => True
  | .resourceGroup p g => '/' ∉ p ∧ '/' ∉ g
  | .resource p g _ _ => '/' ∉ p ∧ '/' ∉ g
  | .resourceNode p g _ _ _ => '/' ∉ p ∧ '/' ∉ g
  | .historyItemGroup p g => '/' ∉ p ∧ '/' ∉ g
  | .historyItem p g i pa =>
    '/' ∉ p ∧ '/' ∉ g ∧ '/' ∉ i ∧ ∀ q ∈ pa, q ≠ [] ∧ ',' ∉ q
  | .historyItemChange p g i _ => '/' ∉ p ∧ '/' ∉ g ∧ '/' ∉ i
  | .historyItemChangeNode p g i _ _ _ =>
    '/' ∉ p ∧ '/' ∉ g ∧ '/' ∉ i ∧ i ≠ ['$', 'F', 'O', 'L', 'D', 'E', 'R']
  | .separator _ => True

/-- Splitting at the first occurrence of a separator character is unambiguous
when neither left part contains it. -/
lemma sep_append_inj {sep : Char} {a b c d : List Char}
    (ha : sep ∉ a) (hc : sep ∉ c)
    (h : a ++ sep :: b = c ++ sep :: d) : a = c ∧ b = d := by
  induction a generalizing c with
  | nil =>
    cases c with
    | nil => simpa using h
    | cons y ys =>
      exfalso
      simp only [List.nil_append, List.cons_append, List.cons.injEq] at h
      exact hc (h.1 ▸ List.mem_cons_self y ys)
  | cons x xs ih =>
    cases c with
    | nil =>
      exfalso
      simp only [List.cons_append, List.nil_append, List.cons.injEq] at h
      exact ha (h.1 ▸ List.mem_cons_self x xs)
    | cons y ys =>
      simp only [List.cons_append, List.cons.injEq] at h
      have hxs : sep ∉ xs := fun hm => ha (List.mem_cons_of_mem x hm)
      have hys : sep ∉ ys := fun hm => hc (List.mem_cons_of_mem y hm)
      obtain ⟨rfl, rfl⟩ := ih hxs hys h.2
      exact ⟨by rw [h.1], rfl⟩

/-- `join(',')` is injective on lists of non-empty, comma-free identifiers. -/
lemma joinComma_inj {xs ys : List (List Char)}
    (hx : ∀ q ∈ xs, q ≠ [] ∧ ',' ∉ q) (hy : ∀ q ∈ ys, q ≠ [] ∧ ',' ∉ q)
    (h : joinComma xs = joinComma ys) : xs = ys := by
  induction xs generalizing ys with
  | nil =>
    cases ys with
    | nil => rfl
    | cons y ys2 =>
      exfalso
      cases ys2 with
      | nil =>
        exact (hy y (List.mem_cons_self y [])).1 (by simpa [joinComma] using h.symm)
      | cons y2 t =>
        have : joinComma ([] : List (List Char)) = y ++ ',' :: joinComma (y2 :: t) := h
        simp [joinComma] at this
  | cons x xs2 ih =>
    cases ys with
    | nil =>
      exfalso
      cases xs2 with
      | nil =>
        exact (hx x (List.mem_cons_self x [])).1 (by simpa [joinComma] using h)
      | cons x2 t =>
        have : x ++ ',' :: joinComma (x2 :: t) = joinComma ([] : List (List Char)) := h
        simp [joinComma] at this
    | cons y ys2 =>
      cases xs2 with
      | nil =>
        cases ys2 with
        | nil =>
          have hxy : x = y := h
          rw [hxy]
        | cons y2 t =>
          exfalso
          have hcomma : ',' ∈ y ++ ',' :: joinComma (y2 :: t) :=
            List.mem_append_right y (List.mem_cons_self ',' _)
          have hx2 : (joinComma [x] : List Char) = x := rfl
          rw [show joinComma (y :: y2 :: t) = y ++ ',' :: joinComma (y2 :: t) from rfl]
            at h
          rw [hx2] at h
          rw [← h] at hcomma
          exact (hx x (List.mem_cons_self x [])).2 hcomma
      | cons x2 t =>
        cases ys2 with
        | nil =>
          exfalso
          have hcomma : ',' ∈ x ++ ',' :: joinComma (x2 :: t) :=
            List.mem_append_right x (List.mem_cons_self ',' _)
          have hy2 : (joinComma [y] : List Char) = y := rfl
          rw [show joinComma (x :: x2 :: t) = x ++ ',' :: joinComma (x2 :: t) from rfl]
            at h
          rw [hy2] at h
          rw [h] at hcomma
          exact (hy y (List.mem_cons_self y [])).2 hcomma
        | cons y2 t2 =>
          rw [show joinComma (x :: x2 :: t) = x ++ ',' :: joinComma (x2 :: t) from rfl,
            show joinComma (y :: y2 :: t2) = y ++ ',' :: joinComma (y2 :: t2) from rfl]
            at h
          obtain ⟨hxy, h2⟩ := sep_append_inj
            (hx x (List.mem_cons_self x _)).2 (hy y (List.mem_cons_self y _)).2 h
          have hrest := ih (fun q hq => hx q (List.mem_cons_of_mem x hq))
            (fun q hq => hy q (List.mem_cons_of_mem y hq)) h2
          rw [hxy, hrest]

/-- The identity-relevant components of a tree element: decorations, display
names and child counts are not serialised by `getSCMResourceId` and are not
part of tree identity. -/
def stripDecorations : TreeElement → TreeElement
  | .resource p g u _ => .resource p g u none
  | .resourceNode p g u _ _ => .resourceNode p g u [] 0
  | .historyItemChangeNode p g i u _ _ => .historyItemChangeNode p g i u [] 0
  | e => e

/-- C5 counterexample: two resource groups with different provider/group ids,
one containing the `/` delimiter, serialise to the same id string
`resourceGroup:a/b/c`. -/
theorem getSCMResourceId_collision :
    getSCMResourceId (.resourceGroup ['a', '/', 'b'] ['c']) =
      getSCMResourceId (.resourceGroup ['a'] ['b', '/', 'c']) ∧
    TreeElement.resourceGroup ['a', '/', 'b'] ['c'] ≠
      TreeElement.resourceGroup ['a'] ['b', '/', 'c'] := by decide

/-- C5 (amended): `getSCMResourceId` is total and deterministic over the
union, and injective on identity-relevant components (kind, provider id,
group/item ids, parent ids, URIs) provided identifiers avoid the `/`
delimiter, history-item parent ids are non-empty and comma-free, and a change
folder node's item id is not the literal `$FOLDER` marker. -/
theorem getSCMResourceId_injective_wellFormed (e₁ e₂ : TreeElement)
    (h₁ : WellFormedId e₁) (h₂ : WellFormedId e₂)
    (h : getSCMResourceId e₁ = getSCMResourceId e₂) :
    stripDecorations e₁ = stripDecorations e₂ := by
  cases e₁ <;> cases e₂ <;> (try (exfalso; simp [getSCMResourceId] at h; done))
  case repository.repository p q =>
    simp only [getSCMResourceId] at h
    rw [List.append_cancel_left h]
  case inputBox.inputBox p q =>
    simp only [getSCMResourceId] at h
    rw [List.append_cancel_left h]
  case actionButton.actionButton p q =>
    simp only [getSCMResourceId] at h
    rw [List.append_cancel_left h]
  case separator.separator p q =>
    simp only [getSCMResourceId] at h
    rw [List.append_cancel_left h]
  case resourceGroup.resourceGroup p g p' g' =>
    obtain ⟨hp, hg⟩ := (h₁ : '/' ∉ p ∧ '/' ∉ g)
    obtain ⟨hp', hg'⟩ := (h₂ : '/' ∉ p' ∧ '/' ∉ g')
    simp only [getSCMResourceId] at h
    obtain ⟨rfl, rfl⟩ := sep_append_inj hp hp' (List.append_cancel_left h)
    rfl
  case historyItemGroup.historyItemGroup p g p' g' =>
    obtain ⟨hp, hg⟩ := (h₁ : '/' ∉ p ∧ '/' ∉ g)
    obtain ⟨hp', hg'⟩ := (h₂ : '/' ∉ p' ∧ '/' ∉ g')
    simp only [getSCMResourceId] at h
    obtain ⟨rfl, rfl⟩ := sep_append_inj hp hp' (List.append_cancel_left h)
    rfl
  case resource.resource p g u tt p' g' u' tt' =>
    obtain ⟨hp, hg⟩ := (h₁ : '/' ∉ p ∧ '/' ∉ g)
    obtain ⟨hp', hg'⟩ := (h₂ : '/' ∉ p' ∧ '/' ∉ g')
    simp only [getSCMResourceId] at h
    obtain ⟨rfl, h2⟩ := sep_append_inj hp hp' (List.append_cancel_left h)
    obtain ⟨rfl, rfl⟩ := sep_append_inj hg hg' h2
    rfl
  case resourceNode.resourceNode p g u n c p' g' u' n' c' =>
    obtain ⟨hp, hg⟩ := (h₁ : '/' ∉ p ∧ '/' ∉ g)
    obtain ⟨hp', hg'⟩ := (h₂ : '/' ∉ p' ∧ '/' ∉ g')
    simp only [getSCMResourceId] at h
    obtain ⟨rfl, h2⟩ := sep_append_inj hp hp' (List.append_cancel_left h)
    obtain ⟨rfl, h3⟩ := sep_append_inj hg hg' h2
    have h4 := List.append_cancel_left h3
    injection h4 with h5 h6
    rw [h6]
    rfl
  case historyItem.historyItem p g i pa p' g' i' pa' =>
    obtain ⟨hp, hg, hi, hpa⟩ :=
      (h₁ : '/' ∉ p ∧ '/' ∉ g ∧ '/' ∉ i ∧ ∀ q ∈ pa, q ≠ [] ∧ ',' ∉ q)
    obtain ⟨hp', hg', hi', hpa'⟩ :=
      (h₂ : '/' ∉ p' ∧ '/' ∉ g' ∧ '/' ∉ i' ∧ ∀ q ∈ pa', q ≠ [] ∧ ',' ∉ q)
    simp only [getSCMResourceId] at h
    obtain ⟨rfl, h2⟩ := sep_append_inj hp hp' (List.append_cancel_left h)
    obtain ⟨rfl, h3⟩ := sep_append_inj hg hg' h2
    obtain ⟨rfl, h4⟩ := sep_append_inj hi hi' h3
    rw [joinComma_inj hpa hpa' h4]
  case historyItemChange.historyItemChange p g i u p' g' i' u' =>
    obtain ⟨hp, hg, hi⟩ := (h₁ : '/' ∉ p ∧ '/' ∉ g ∧ '/' ∉ i)
    obtain ⟨hp', hg', hi'⟩ := (h₂ : '/' ∉ p' ∧ '/' ∉ g' ∧ '/' ∉ i')
    simp only [getSCMResourceId] at h
    obtain ⟨rfl, h2⟩ := sep_append_inj hp hp' (List.append_cancel_left h)
    obtain ⟨rfl, h3⟩ := sep_append_inj hg hg' h2
    obtain ⟨rfl, rfl⟩ := sep_append_inj hi hi' h3
    rfl
  case historyItemChangeNode.historyItemChangeNode p g i u n c p' g' i' u' n' c' =>
    obtain ⟨hp, hg, hi, hne⟩ :=
      (h₁ : '/' ∉ p ∧ '/' ∉ g ∧ '/' ∉ i ∧ i ≠ ['$', 'F', 'O', 'L', 'D', 'E', 'R'])
    obtain ⟨hp', hg', hi', hne'⟩ :=
      (h₂ : '/' ∉ p' ∧ '/' ∉ g' ∧ '/' ∉ i' ∧ i' ≠ ['$', 'F', 'O', 'L', 'D', 'E', 'R'])
    simp only [getSCMResourceId] at h
    obtain ⟨rfl, h2⟩ := sep_append_inj hp hp' (List.append_cancel_left h)
    obtain ⟨rfl, h3⟩ := sep_append_inj hg hg' h2
    obtain ⟨rfl, h4⟩ := sep_append_inj hi hi' h3
    have h5 := List.append_cancel_left h4
    injection h5 with h6 h7
    rw [h7]
    rfl
  case resourceNode.historyItemChangeNode p g u n c p' g' i' u' n' c' =>
    exfalso
    obtain ⟨hp, hg⟩ := (h₁ : '/' ∉ p ∧ '/' ∉ g)
    obtain ⟨hp', hg', hi', hne'⟩ :=
      (h₂ : '/' ∉ p' ∧ '/' ∉ g' ∧ '/' ∉ i' ∧ i' ≠ ['$', 'F', 'O', 'L', 'D', 'E', 'R'])
    simp only [getSCMResourceId] at h
    obtain ⟨rfl, h2⟩ := sep_append_inj hp hp' (List.append_cancel_left h)
    obtain ⟨rfl, h3⟩ := sep_append_inj hg hg' h2
    have hF : '/' ∉ ['$', 'F', 'O', 'L', 'D', 'E', 'R'] := by decide
    obtain ⟨hEq, _⟩ := sep_append_inj hF hi' h3
    exact hne' hEq.symm
  case historyItemChangeNode.resourceNode p g i u n c p' g' u' n' c' =>
    exfalso
    obtain ⟨hp, hg, hi, hne⟩ :=
      (h₁ : '/' ∉ p ∧ '/' ∉ g ∧ '/' ∉ i ∧ i ≠ ['$', 'F', 'O', 'L', 'D', 'E', 'R'])
    obtain ⟨hp', hg'⟩ := (h₂ : '/' ∉ p' ∧ '/' ∉ g')
    simp only [getSCMResourceId] at h
    obtain ⟨rfl, h2⟩ := sep_append_inj hp hp' (List.append_cancel_left h)
    obtain ⟨rfl, h3⟩ := sep_append_inj hg hg' h2
    have hF : '/' ∉ ['$', 'F', 'O', 'L', 'D', 'E', 'R'] := by decide
    obtain ⟨hEq, _⟩ := sep_append_inj hi hF h3
    exact hne hEq

theorem getSCMResourceId_injective_wellFormed_witness :
    WellFormedId (TreeElement.historyItem ['p'] ['g'] ['i'] [['a']]) ∧
    getSCMResourceId (TreeElement.historyItem ['p'] ['g'] ['i'] [['a']]) =
      getSCMResourceId (TreeElement.historyItem ['p'] ['g'] ['i'] [['a']]) ∧
    stripDecorations (TreeElement.historyItem ['p'] ['g'] ['i'] [['a']]) =
      stripDecorations (TreeElement.historyItem ['p'] ['g'] ['i'] [['a']]) :=
  ⟨⟨by decide, by decide, by decide, by decide⟩, rfl,
    getSCMResourceId_injective_wellFormed
      (TreeElement.historyItem ['p'] ['g'] ['i'] [['a']])
      (TreeElement.historyItem ['p'] ['g'] ['i'] [['a']])
      ⟨by decide, by decide, by decide, by decide⟩
      ⟨by decide, by decide, by decide, by decide⟩ rfl⟩

/-! ## SCMTreeDataSource.getHistoryItemGroups (C6)

The `scm.showIncomingChanges` / `scm.showOutgoingChanges` settings are the
tri-state `{always, auto, never}`.  The history provider is modelled by its
current history item group and by the settled result of
`resolveHistoryItemGroupCommonAncestor(currentHistoryItemGroup.id,
currentHistoryItemGroup.base?.id)`; the per-repository cache entry carries the
previously derived incoming/outgoing group elements. -/

inductive ShowChangesSetting
  | always
  | auto
  | never
  deriving DecidableEq, Repr

structure HistoryItemGroupRef where
  id : List Char
  label : List Char
  deriving DecidableEq, Repr

structure CurrentHistoryItemGroup where
  id : List Char
  label : List Char
  base : Option HistoryItemGroupRef
  deriving DecidableEq, Repr

structure CommonAncestor where
  id : List Char
  ahead : Option Nat
  behind : Option Nat
  deriving DecidableEq, Repr

structure HistoryProvider where
  currentHistoryItemGroup : Option CurrentHistoryItemGroup
  commonAncestor : Option CommonAncestor
  deriving DecidableEq, Repr

inductive Direction
  | incoming
  | outgoing
  deriving DecidableEq, Repr

structure SCMHistoryItemGroupTreeElement where
  id : List Char
  label : List Char
  direction : Direction
  ancestor : List Char
  count : Option Nat
  deriving DecidableEq, Repr

structure HistoryProviderCacheEntry where
  incomingHistoryItemGroup : Option SCMHistoryItemGroupTreeElement
  outgoingHistoryItemGroup : Option SCMHistoryItemGroupTreeElement
  deriving DecidableEq, Repr

/-- The "Incoming" node, built only if the current group has a base branch;
`count` is `ancestor.behind`. -/
def mkIncoming (cur : CurrentHistoryItemGroup) (anc : CommonAncestor) :
    Option SCMHistoryItemGroupTreeElement :=
  cur.base.map fun b =>
    { id := b.id, label := b.label, direction := .incoming,
      ancestor := anc.id, count := anc.behind }

/-- The "Outgoing" node; `count` is `ancestor.ahead`. -/
def mkOutgoing (cur : CurrentHistoryItemGroup) (anc : CommonAncestor) :
    SCMHistoryItemGroupTreeElement :=
  { id := cur.id, label := cur.label, direction := .outgoing,
    ancestor := anc.id, count := anc.ahead }

/-- `showX === 'always' || (showX === 'auto' && (group.count ?? 0) > 0)`. -/
def showsGroup (s : ShowChangesSetting) (g : SCMHistoryItemGroupTreeElement) : Bool :=
  s = ShowChangesSetting.always ||
    (s = ShowChangesSetting.auto && 0 < g.count.getD 0)

/-- The two final `children.push(...)` steps. -/
def pushGroups (si so : ShowChangesSetting)
    (inc out : Option SCMHistoryItemGroupTreeElement) :
    List SCMHistoryItemGroupTreeElement :=
  (match inc with
    | some g => if showsGroup si g then [g] else []
    | none => []) ++
  (match out with
    | some g => if showsGroup so g then [g] else []
    | none => [])

def getHistoryItemGroups (si so : ShowChangesSetting)
    (historyProvider : Option HistoryProvider)
    (cacheEntry : HistoryProviderCacheEntry) :
    List SCMHistoryItemGroupTreeElement :=
  match historyProvider with
  | none => []
  | some hp =>
    match hp.currentHistoryItemGroup with
    | none => []
    | some cur =>
      if si = ShowChangesSetting.never ∧ so = ShowChangesSetting.never then []
      else
        match cacheEntry.incomingHistoryItemGroup, cacheEntry.outgoingHistoryItemGroup with
        | none, none =>
          match hp.commonAncestor with
          | none => []
          | some anc => pushGroups si so (mkIncoming cur anc) (some (mkOutgoing cur anc))
        | inc, out => pushGroups si so inc out

/-- The incoming group the call works with: the cached one if the cache entry
is non-empty, else the one derived from the common-ancestor resolution. -/
def resolvedIncoming (hp : HistoryProvider) (cur : CurrentHistoryItemGroup)
    (cacheEntry : HistoryProviderCacheEntry) : Option SCMHistoryItemGroupTreeElement :=
  match cacheEntry.incomingHistoryItemGroup, cacheEntry.outgoingHistoryItemGroup with
  | none, none => hp.commonAncestor.bind fun anc => mkIncoming cur anc
  | inc, _ => inc

/-- The outgoing group the call works with. -/
def resolvedOutgoing (hp : HistoryProvider) (cur : CurrentHistoryItemGroup)
    (cacheEntry : HistoryProviderCacheEntry) : Option SCMHistoryItemGroupTreeElement :=
  match cacheEntry.incomingHistoryItemGroup, cacheEntry.outgoingHistoryItemGroup with
  | none, none => hp.commonAncestor.map fun anc => mkOutgoing cur anc
  | _, out => out

lemma showsGroup_iff (s : ShowChangesSetting) (g : SCMHistoryItemGroupTreeElement) :
    showsGroup s g = true ↔
      (s = ShowChangesSetting.always ∨
        (s = ShowChangesSetting.auto ∧ 0 < g.count.getD 0)) := by
  cases s <;> simp [showsGroup]

lemma mem_pushGroups (si so : ShowChangesSetting)
    (inc out : Option SCMHistoryItemGroupTreeElement) (g : SCMHistoryItemGroupTreeElement) :
    g ∈ pushGroups si so inc out ↔
      ((inc = some g ∧ (si = ShowChangesSetting.always ∨
          (si = ShowChangesSetting.auto ∧ 0 < g.count.getD 0))) ∨
        (out = some g ∧ (so = ShowChangesSetting.always ∨
          (so = ShowChangesSetting.auto ∧ 0 < g.count.getD 0)))) := by
  rcases inc with _ | g1 <;> rcases out with _ | g2 <;>
    simp only [pushGroups, List.mem_append, List.not_mem_nil, List.nil_append,
      List.append_nil, false_or, or_false, Option.some.injEq]
  · simp
  · by_cases h2 : showsGroup so g2 = true
    · rw [if_pos h2]
      rw [showsGroup_iff] at h2
      simp only [List.mem_singleton]
      constructor
      · rintro rfl
        exact Or.inr ⟨rfl, h2⟩
      · rintro (⟨h, _⟩ | ⟨h, _⟩)
        · simp at h
        · exact h.symm
    · rw [if_neg h2]
      rw [showsGroup_iff] at h2
      simp only [List.not_mem_nil, false_iff]
      rintro (⟨h, _⟩ | ⟨rfl, hc⟩)
      · simp at h
      · exact h2 hc
  · by_cases h1 : showsGroup si g1 = true
    · rw [if_pos h1]
      rw [showsGroup_iff] at h1
      simp only [List.mem_singleton]
      constructor
      · rintro rfl
        exact Or.inl ⟨rfl, h1⟩
      · rintro (⟨rfl, _⟩ | ⟨h, _⟩)
        · rfl
        · simp at h
    · rw [if_neg h1]
      rw [showsGroup_iff] at h1
      simp only [List.not_mem_nil, false_iff]
      rintro (⟨rfl, hc⟩ | ⟨h, _⟩)
      · exact h1 hc
      · simp at h
  · by_cases h1 : showsGroup si g1 = true <;> by_cases h2 : showsGroup so g2 = true <;>
      [rw [if_pos h1, if_pos h2]; rw [if_pos h1, if_neg h2];
        rw [if_neg h1, if_pos h2]; rw [if_neg h1, if_neg h2]] <;>
      rw [showsGroup_iff] at h1 h2 <;>
      simp only [List.mem_append, List.mem_singleton, List.not_mem_nil, or_false,
        false_or] <;>
      constructor
    · rintro (rfl | rfl)
      · exact Or.inl ⟨rfl, h1⟩
      · exact Or.inr ⟨rfl, h2⟩
    · rintro (⟨rfl, _⟩ | ⟨rfl, _⟩)
      · exact Or.inl rfl
      · exact Or.inr rfl
    · rintro rfl
      exact Or.inl ⟨rfl, h1⟩
    · rintro (⟨rfl, _⟩ | ⟨rfl, hc⟩)
      · rfl
      · exact absurd hc h2
    · rintro rfl
      exact Or.inr ⟨rfl, h2⟩
    · rintro (⟨rfl, hc⟩ | ⟨rfl, _⟩)
      · exact absurd hc h1
      · rfl
    · rintro h
      exact h.elim
    · rintro (⟨rfl, hc⟩ | ⟨rfl, hc⟩)
      · exact absurd hc h1
      · exact absurd hc h2

/-- C6: `getHistoryItemGroups` returns the empty list when there is no history
provider, no current history item group, both settings are `never`, or the
cache is empty and the common-ancestor resolution yields nothing; otherwise a
group is returned exactly when it is the available incoming (resp. outgoing)
group and its setting is `always`, or `auto` with a positive count. -/
theorem getHistoryItemGroups_policy (si so : ShowChangesSetting)
    (hp : Option HistoryProvider) (cache : HistoryProviderCacheEntry) :
    (hp = none → getHistoryItemGroups si so hp cache = []) ∧
    (∀ h, hp = some h → h.currentHistoryItemGroup = none →
      getHistoryItemGroups si so hp cache = []) ∧
    (si = ShowChangesSetting.never → so = ShowChangesSetting.never →
      getHistoryItemGroups si so hp cache = []) ∧
    (∀ h, hp = some h → cache.incomingHistoryItemGroup = none →
      cache.outgoingHistoryItemGroup = none → h.commonAncestor = none →
      getHistoryItemGroups si so hp cache = []) ∧
    (∀ h cur, hp = some h → h.currentHistoryItemGroup = some cur →
      ¬(si = ShowChangesSetting.never ∧ so = ShowChangesSetting.never) →
      ∀ g, g ∈ getHistoryItemGroups si so hp cache ↔
        ((resolvedIncoming h cur cache = some g ∧
            (si = ShowChangesSetting.always ∨
              (si = ShowChangesSetting.auto ∧ 0 < g.count.getD 0))) ∨
          (resolvedOutgoing h cur cache = some g ∧
            (so = ShowChangesSetting.always ∨
              (so = ShowChangesSetting.auto ∧ 0 < g.count.getD 0))))) := by
  refine ⟨?_, ?_, ?_, ?_, ?_⟩
  · rintro rfl
    rfl
  · rintro h rfl hcg
    simp [getHistoryItemGroups, hcg]
  · rintro rfl rfl
    rcases hp with _ | h
    · rfl
    · rcases hcg : h.currentHistoryItemGroup with _ | cur <;>
        simp [getHistoryItemGroups, hcg]
  · rintro h rfl hinc hout hanc
    rcases hcg : h.currentHistoryItemGroup with _ | cur
    · simp [getHistoryItemGroups, hcg]
    · by_cases hnev : si = ShowChangesSetting.never ∧ so = ShowChangesSetting.never
      · simp [getHistoryItemGroups, hcg, hnev]
      · simp [getHistoryItemGroups, hcg, hnev, hinc, hout, hanc]
  · rintro h cur rfl hcg hnev g
    rcases hinc : cache.incomingHistoryItemGroup with _ | gi
    · rcases hout : cache.outgoingHistoryItemGroup with _ | go
      · rcases hanc : h.commonAncestor with _ | anc
        · simp [getHistoryItemGroups, hcg, hnev, hinc, hout, hanc,
            resolvedIncoming, resolvedOutgoing]
        · have hres : getHistoryItemGroups si so (some h) cache =
              pushGroups si so (mkIncoming cur anc) (some (mkOutgoing cur anc)) := by
            simp [getHistoryItemGroups, hcg, hnev, hinc, hout, hanc]
          rw [hres, mem_pushGroups]
          simp [resolvedIncoming, resolvedOutgoing, hinc, hout, hanc]
      · have hres : getHistoryItemGroups si so (some h) cache =
            pushGroups si so none (some go) := by
          simp [getHistoryItemGroups, hcg, hnev, hinc, hout]
        rw [hres, mem_pushGroups]
        simp [resolvedIncoming, resolvedOutgoing, hinc, hout]
    · rcases hout : cache.outgoingHistoryItemGroup with _ | go
      · have hres : getHistoryItemGroups si so (some h) cache =
            pushGroups si so (some gi) none := by
          simp [getHistoryItemGroups, hcg, hnev, hinc, hout]
        rw [hres, mem_pushGroups]
        simp [resolvedIncoming, resolvedOutgoing, hinc, hout]
      · have hres : getHistoryItemGroups si so (some h) cache =
            pushGroups si so (some gi) (some go) := by
          simp [getHistoryItemGroups, hcg, hnev, hinc, hout]
        rw [hres, mem_pushGroups]
        simp [resolvedIncoming, resolvedOutgoing, hinc, hout]

end VSCode
